import Mathlib

/-! Verification of the MHTML-to-single-HTML converter of `mhtml_extractor.py`.

Python strings are modelled as lists of Unicode code points (`List Char`),
byte strings as lists of naturals below 256 (`List Nat`).  Each definition
below translates the Python construct named in its doc comment; stdlib
behaviour that the source calls (string methods, `re.search` on the five
fixed patterns, `base64`, `quopri`, the codecs) is modelled explicitly. -/

abbrev PyStr := List Char

abbrev Bytes := List Nat

/-- Code points removed by Python `str.strip()` (the `str.isspace` class). -/
def pySpaceCodes : List Nat :=
  [9, 10, 11, 12, 13, 28, 29, 30, 31, 32, 133, 160, 5760,
   8192, 8193, 8194, 8195, 8196, 8197, 8198, 8199, 8200, 8201, 8202,
   8232, 8233, 8239, 8287, 12288]

def isPySpace (c : Char) : Bool := pySpaceCodes.contains c.toNat

/-- Python `str.strip()`: remove leading and trailing whitespace. -/
def pyStrip (s : PyStr) : PyStr :=
  ((s.dropWhile isPySpace).reverse.dropWhile isPySpace).reverse

/-- Python `str.lstrip("\r\n")`: remove leading carriage returns and newlines. -/
def lstripCRLF (s : PyStr) : PyStr :=
  s.dropWhile (fun c => c == '\r' || c == '\n')

/-- ASCII case lowering, modelling `str.lower` and `re.IGNORECASE` on the
ASCII header text the source works with. -/
def pyLower (s : PyStr) : PyStr := s.map Char.toLower

/-- Python `str.startswith`. -/
def startsWithStr (s pre : PyStr) : Bool := s.take pre.length == pre

/-- Leftmost occurrence of `sub` in `s` (Python `str.find`, with `None` for
the `-1` result). -/
def strFind (s sub : PyStr) : Option Nat :=
  (List.range (s.length + 1)).find? (fun i => (s.drop i).take sub.length == sub)

/-- Python `str.partition(sep)`. -/
def strPartition (s sep : PyStr) : PyStr × PyStr × PyStr :=
  match strFind s sep with
  | none => (s, [], [])
  | some i => (s.take i, sep, s.drop (i + sep.length))

/-- Worker for `strSplit`; the fuel bounds the number of separator
occurrences, and `s.length` always suffices for a nonempty separator. -/
def strSplitAux (sep : PyStr) : Nat → PyStr → List PyStr
  | 0, s => [s]
  | fuel + 1, s =>
    match strFind s sep with
    | none => [s]
    | some i => s.take i :: strSplitAux sep fuel (s.drop (i + sep.length))

/-- Python `str.split(sep)` for a nonempty separator. -/
def strSplit (s sep : PyStr) : List PyStr := strSplitAux sep s.length s

/-- Worker for `strReplace`, replacing leftmost occurrences in turn. -/
def strReplaceAux (old new : PyStr) : Nat → PyStr → PyStr
  | 0, s => s
  | fuel + 1, s =>
    match strFind s old with
    | none => s
    | some i => s.take i ++ new ++ strReplaceAux old new fuel (s.drop (i + old.length))

/-- Python `str.replace(old, new)`: plain literal substitution of all
non-overlapping occurrences, left to right.  For an empty `old`, Python
inserts `new` before, between and after the characters. -/
def strReplace (s old new : PyStr) : PyStr :=
  if old.isEmpty then new ++ (s.map (fun c => c :: new)).flatten
  else strReplaceAux old new s.length s

/-- Join segments with a separator (the inverse view of `strSplit`). -/
def joinWith (sep : PyStr) : List PyStr → PyStr
  | [] => []
  | x :: [] => x
  | x :: y :: rest => x ++ sep ++ joinWith sep (y :: rest)

/-- Whether the regex-shaped pattern "literal then a captured nonempty run of
characters outside `stop`" matches at position `i` of `s`.  When `close` is
set, the run must be followed by one more character, necessarily in `stop` --
this is the closing delimiter of the two source patterns that end in a
literal after the group.  `ci` selects case-insensitive literal matching. -/
def capMatchAt (ci : Bool) (lit : PyStr) (stop : List Char) (close : Bool)
    (s : PyStr) (i : Nat) : Bool :=
  let norm := fun (l : PyStr) => if ci then pyLower l else l
  let rest := (s.drop i).drop lit.length
  let run := rest.takeWhile (fun c => !(stop.contains c))
  norm ((s.drop i).take lit.length) == norm lit &&
    (!run.isEmpty && (!close || decide (run.length < rest.length)))

/-- Model of `re.search` for the five header patterns of the source, all of
the above shape; the leftmost matching position wins and the captured group
is greedy, as for Python regexes. -/
def findCapture (ci : Bool) (lit : PyStr) (stop : List Char) (close : Bool)
    (s : PyStr) : Option PyStr :=
  ((List.range (s.length + 1)).find? (capMatchAt ci lit stop close s)).map
    (fun i => ((s.drop i).drop lit.length).takeWhile (fun c => !(stop.contains c)))

/-- `_parse_boundary`: the case-sensitive search for a double-quoted
`boundary` parameter in the top-level header block. -/
def parse_boundary (headers : PyStr) : Option PyStr :=
  findCapture false (("boundary=\"").data) ['"'] true headers

/-- UTF-8 bytes of one code point. -/
def utf8EncodeChar (c : Char) : Bytes :=
  let n := c.toNat
  if n < 128 then [n]
  else if n < 2048 then [192 + n / 64, 128 + n % 64]
  else if n < 65536 then [224 + n / 4096, 128 + n / 64 % 64, 128 + n % 64]
  else [240 + n / 262144, 128 + n / 4096 % 64, 128 + n / 64 % 64, 128 + n % 64]

/-- Python `str.encode("utf-8")` (total: Lean `Char` excludes surrogates). -/
def utf8Encode (s : PyStr) : Bytes := (s.map utf8EncodeChar).flatten

def isUtf8Cont (b : Nat) : Bool := decide (128 ≤ b ∧ b < 192)

/-- Python `bytes.decode("utf-8")`: strict UTF-8, rejecting stray or overlong
sequences and surrogate code points. -/
def utf8Decode : Bytes → Option PyStr
  | [] => some []
  | b :: rest =>
    if b < 128 then (utf8Decode rest).map (fun t => Char.ofNat b :: t)
    else if b < 194 then none
    else if b < 224 then
      match rest with
      | b2 :: r2 =>
        if isUtf8Cont b2 then
          (utf8Decode r2).map (fun t => Char.ofNat ((b - 192) * 64 + (b2 - 128)) :: t)
        else none
      | [] => none
    else if b < 240 then
      match rest with
      | b2 :: b3 :: r3 =>
        if isUtf8Cont b2 && isUtf8Cont b3 then
          let n := (b - 224) * 4096 + (b2 - 128) * 64 + (b3 - 128)
          if 2048 ≤ n ∧ ¬(55296 ≤ n ∧ n < 57344) then
            (utf8Decode r3).map (fun t => Char.ofNat n :: t)
          else none
        else none
      | _ => none
    else if b < 245 then
      match rest with
      | b2 :: b3 :: b4 :: r4 =>
        if isUtf8Cont b2 && isUtf8Cont b3 && isUtf8Cont b4 then
          let n := (b - 240) * 262144 + (b2 - 128) * 4096 + (b3 - 128) * 64 + (b4 - 128)
          if 65536 ≤ n ∧ n < 1114112 then
            (utf8Decode r4).map (fun t => Char.ofNat n :: t)
          else none
        else none
      | _ => none
    else none

/-- Python `bytes.decode("latin-1")`: total, byte value = code point. -/
def latin1Decode (bs : Bytes) : PyStr := bs.map Char.ofNat

def b64Chars : PyStr :=
  ("ABCDEFGHIJKLMNOPQRSTUVWXYZabcdefghijklmnopqrstuvwxyz0123456789+/").data

def b64CharAt (n : Nat) : Char := b64Chars.getD n 'A'

/-- Python `base64.b64encode(..).decode()`: standard alphabet, padded. -/
def b64encode : Bytes → PyStr
  | [] => []
  | [a] => [b64CharAt (a / 4), b64CharAt (a % 4 * 16), '=', '=']
  | [a, b] => [b64CharAt (a / 4), b64CharAt (a % 4 * 16 + b / 16), b64CharAt (b % 16 * 4), '=']
  | a :: b :: c :: rest =>
    b64CharAt (a / 4) :: b64CharAt (a % 4 * 16 + b / 16) ::
      b64CharAt (b % 16 * 4 + c / 64) :: b64CharAt (c % 64) :: b64encode rest

def b64Val (c : Char) : Nat := (List.indexOf? c b64Chars).getD 0

/-- Decode base64 quanta (alphabet characters only, padding handled by the
caller): each full quantum yields three bytes, a final quantum of two or
three characters yields one or two bytes. -/
def b64quads : List Char → Bytes
  | a :: b :: c :: d :: rest =>
    (b64Val a * 4 + b64Val b / 16) :: (b64Val b % 16 * 16 + b64Val c / 4) ::
      (b64Val c % 4 * 64 + b64Val d) :: b64quads rest
  | [a, b] => [b64Val a * 4 + b64Val b / 16]
  | [a, b, c] => [b64Val a * 4 + b64Val b / 16, b64Val b % 16 * 16 + b64Val c / 4]
  | _ => []

/-- Python `base64.b64decode` applied to a `str` body (`validate=False`):
non-ASCII input raises; characters outside the alphabet are discarded;
the alphabet characters before the first `=` are decoded, and the padding
must complete the final quantum, else `binascii.Error` is raised. -/
def b64decodePy (s : PyStr) : Option Bytes :=
  if s.any (fun c => decide (128 ≤ c.toNat)) then none
  else
    let kept := s.filter (fun c => b64Chars.contains c || c == '=')
    let main := kept.takeWhile (fun c => c != '=')
    let pads := (kept.drop main.length).count '='
    let r := main.length % 4
    if r = 0 then some (b64quads main)
    else if r = 2 ∧ 2 ≤ pads then some (b64quads main)
    else if r = 3 ∧ 1 ≤ pads then some (b64quads main)
    else none

def hexDigit (c : Char) : Option Nat :=
  if 48 ≤ c.toNat ∧ c.toNat ≤ 57 then some (c.toNat - 48)
  else if 65 ≤ c.toNat ∧ c.toNat ≤ 70 then some (c.toNat - 55)
  else if 97 ≤ c.toNat ∧ c.toNat ≤ 102 then some (c.toNat - 87)
  else none

def qpDecodeAux : List Char → Bytes
  | [] => []
  | '=' :: '\n' :: rest => qpDecodeAux rest
  | '=' :: '\r' :: '\n' :: rest => qpDecodeAux rest
  | '=' :: a :: b :: rest =>
    match hexDigit a, hexDigit b with
    | some ha, some hb => (ha * 16 + hb) :: qpDecodeAux rest
    | _, _ => 61 :: qpDecodeAux (a :: b :: rest)
  | c :: rest => c.toNat :: qpDecodeAux rest

/-- Python `quopri.decodestring` applied to a `str` body: non-ASCII raises
(the `binascii` workers accept only ASCII strings); otherwise soft line
breaks vanish, `=XY` hex escapes become bytes, other text is copied. -/
def qpDecode (s : PyStr) : Option Bytes :=
  if s.any (fun c => decide (128 ≤ c.toNat)) then none else some (qpDecodeAux s)

/-- The `try` body of `_decode_body`; `none` models a raised exception. -/
def decodeAttempt (encoding body : PyStr) : Option Bytes :=
  if encoding = ("base64").data then b64decodePy body
  else if encoding = ("quoted-printable").data then qpDecode body
  else some (utf8Encode body)

/-- `_decode_body`: on any decoding error, fall back to the UTF-8 bytes of
the raw undecoded body text (the `except` branch, after a logged warning). -/
def decode_body (encoding body : PyStr) : Bytes :=
  match decodeAttempt encoding body with
  | some bs => bs
  | none => utf8Encode body

/-- `_make_data_uri`. -/
def make_data_uri (content_type : PyStr) (binary_data : Bytes) : PyStr :=
  ("data:").data ++ content_type ++ (";base64,").data ++ b64encode binary_data

/-- Lookup in the insertion-ordered association list modelling a Python dict. -/
def dictGet (m : List (PyStr × PyStr)) (k : PyStr) : Option PyStr :=
  match m with
  | [] => none
  | (k2, v) :: rest => if k2 = k then some v else dictGet rest k

/-- Python dict assignment `m[k] = v`: update an existing key in place,
otherwise append at the end (insertion order, last write wins). -/
def dictInsert (m : List (PyStr × PyStr)) (k v : PyStr) : List (PyStr × PyStr) :=
  match m with
  | [] => [(k, v)]
  | (k2, v2) :: rest => if k2 = k then (k2, v) :: rest else (k2, v2) :: dictInsert rest k v

def crlf : PyStr := ("\r\n").data

def lf1 : PyStr := ("\n").data

def nlnl : PyStr := ("\n\n").data

/-- `part.strip().lstrip("\r\n")` of line 51. -/
def strippedPart (p : PyStr) : PyStr := lstripCRLF (pyStrip p)

/-- Header block of a stripped part: the text before the first blank-line
separator of the raw part text (Python `partition`, line 54), with `"\r\n"`
normalised to `"\n"` afterwards (line 56). -/
def partHeaders (sp : PyStr) : PyStr := strReplace (strPartition sp nlnl).1 crlf lf1

/-- Body of a stripped part: the text after the first blank-line separator
(empty when there is none), with `"\r\n"` normalised to `"\n"` (line 57). -/
def partBody (sp : PyStr) : PyStr := strReplace ((strPartition sp nlnl).2.2) crlf lf1

/-- The literals of the four header regexes, lower-cased since they are
matched under `re.IGNORECASE`. -/
def ctLit : PyStr := ("content-type: ").data

def cteLit : PyStr := ("content-transfer-encoding: ").data

def clLit : PyStr := ("content-location: ").data

def cidLit : PyStr := ("content-id: <").data

/-- Line 59/64: the `Content-Type` value, stripped, or the default. -/
def partContentType (sp : PyStr) : PyStr :=
  match findCapture true ctLit ['\n', ';'] false (partHeaders sp) with
  | some v => pyStrip v
  | none => ("application/octet-stream").data

/-- Line 60/65: the transfer encoding, stripped and lower-cased, or `7bit`. -/
def partEncoding (sp : PyStr) : PyStr :=
  match findCapture true cteLit ['\n'] false (partHeaders sp) with
  | some v => pyLower (pyStrip v)
  | none => ("7bit").data

/-- Line 61: the raw `Content-Location` capture, when present. -/
def partLocation (sp : PyStr) : Option PyStr :=
  findCapture true clLit ['\n'] false (partHeaders sp)

/-- Line 62: the bare `Content-ID` capture (without angle brackets). -/
def partCid (sp : PyStr) : Option PyStr :=
  findCapture true cidLit ['>'] true (partHeaders sp)

/-- Line 67: the transfer-decoded body bytes. -/
def partDecoded (sp : PyStr) : Bytes := decode_body (partEncoding sp) (partBody sp)

/-- Line 69: `content_type.startswith("text/html")`. -/
def partIsHtml (sp : PyStr) : Bool := startsWithStr (partContentType sp) (("text/html").data)

/-- Lines 70-73: decode the bytes as UTF-8, falling back to Latin-1. -/
def partHtmlText (sp : PyStr) : PyStr :=
  match utf8Decode (partDecoded sp) with
  | some t => t
  | none => latin1Decode (partDecoded sp)

/-- The pipeline state: the `url_to_data_uri` dict and `main_html` fields. -/
structure ConvState where
  url_to_data_uri : List (PyStr × PyStr)
  main_html : Option PyStr
deriving DecidableEq

def initState : ConvState := ⟨[], none⟩

/-- The data-URI branch of `_process_part` (lines 76-84): synthesise the
data URI and register it under the keys whose headers are present. -/
def processResource (st : ConvState) (sp : PyStr) : ConvState :=
  let uri := make_data_uri (partContentType sp) (partDecoded sp)
  let st1 :=
    match partLocation sp with
    | some loc => { st with url_to_data_uri := dictInsert st.url_to_data_uri (pyStrip loc) uri }
    | none => st
  match partCid sp with
  | some cid =>
    { st1 with url_to_data_uri := dictInsert st1.url_to_data_uri ((("cid:").data) ++ pyStrip cid) uri }
  | none => st1

/-- `_process_part`. -/
def process_part (st : ConvState) (p : PyStr) : ConvState :=
  let sp := strippedPart p
  if sp.isEmpty then st
  else if partIsHtml sp && st.main_html.isNone then
    { st with main_html := some (partHtmlText sp) }
  else processResource st sp

/-- `_extract_parts`. -/
def extract_parts (content : PyStr) : Except String (List PyStr) :=
  match strFind content nlnl with
  | none => .error ("Invalid MHTML structure")
  | some headerEnd =>
    match parse_boundary (content.take headerEnd) with
    | none => .error ("No boundary found in MHTML headers")
    | some b =>
      if b.isEmpty then .error ("No boundary found in MHTML headers")
      else .ok (((strSplit content ((("--").data) ++ b)).drop 1).dropLast)

/-- `sorted(keys, key=len, reverse=True)`: stable sort, longest first. -/
def sortKeysDesc (ks : List PyStr) : List PyStr :=
  ks.mergeSort (fun a b => decide (b.length ≤ a.length))

/-- `_replace_links`. -/
def replace_links (m : List (PyStr × PyStr)) (html : PyStr) : PyStr :=
  (sortKeysDesc (m.map Prod.fst)).foldl
    (fun h k => strReplace h k ((dictGet m k).getD [])) html

/-- The part-processing loop of `convert` (lines 100-101). -/
def runParts (parts : List PyStr) : ConvState := parts.foldl process_part initState

/-- Pipeline state after the first `j` parts have been processed. -/
def stAt (parts : List PyStr) (j : Nat) : ConvState :=
  (parts.take j).foldl process_part initState

/-- `convert`, from the in-memory document text to the written HTML text.
An `Except.error` is the uncaught `ValueError` of `_extract_parts`;
`Except.ok none` is the "Main HTML part not found" run that writes nothing. -/
def convert (content : PyStr) : Except String (Option PyStr) :=
  match extract_parts content with
  | .error e => .error e
  | .ok parts =>
    let st := runParts parts
    match st.main_html with
    | none => .ok none
    | some html => .ok (some (replace_links st.url_to_data_uri html))

/-! ### Facts about the string primitives -/

theorem strFind_some_spec {s sub : PyStr} {i : Nat} (h : strFind s sub = some i) :
    (s.drop i).take sub.length = sub ∧ i ≤ s.length := by
  have hmem := List.mem_of_find?_eq_some h
  have hp := List.find?_some h
  refine ⟨by simpa using hp, ?_⟩
  have := List.mem_range.mp hmem
  omega

theorem strFind_some_le {s sub : PyStr} {i : Nat} (h : strFind s sub = some i) :
    i + sub.length ≤ s.length := by
  obtain ⟨h1, h2⟩ := strFind_some_spec h
  have hl := congrArg List.length h1
  simp only [List.length_take, List.length_drop] at hl
  omega

theorem strFind_decomp {s sub : PyStr} {i : Nat} (h : strFind s sub = some i) :
    s.take i ++ sub ++ s.drop (i + sub.length) = s := by
  obtain ⟨h1, -⟩ := strFind_some_spec h
  have h2 : s.drop i = sub ++ s.drop (i + sub.length) := by
    conv_lhs => rw [← List.take_append_drop sub.length (s.drop i)]
    rw [h1, List.drop_drop]
  calc s.take i ++ sub ++ s.drop (i + sub.length)
      = s.take i ++ s.drop i := by rw [List.append_assoc, ← h2]
    _ = s := List.take_append_drop i s

theorem strFind_nil_sub (s : PyStr) : strFind s [] = some 0 := by
  rw [strFind, List.range_succ_eq_map]
  exact List.find?_cons_of_pos _ (by simp)

theorem strSplitAux_ne_nil (sep : PyStr) (fuel : Nat) (s : PyStr) :
    strSplitAux sep fuel s ≠ [] := by
  cases fuel with
  | zero => simp [strSplitAux]
  | succ n => cases h : strFind s sep <;> simp [strSplitAux, h]

theorem joinWith_strSplitAux (sep : PyStr) (hsep : sep ≠ []) :
    ∀ fuel s, s.length ≤ fuel → joinWith sep (strSplitAux sep fuel s) = s := by
  intro fuel
  induction fuel with
  | zero =>
    intro s hs
    have hz : s = [] := List.length_eq_zero.mp (Nat.le_zero.mp hs)
    subst hz
    simp [strSplitAux, joinWith]
  | succ n ih =>
    intro s hs
    cases h : strFind s sep with
    | none => simp [strSplitAux, h, joinWith]
    | some i =>
      have hle := strFind_some_le h
      have hsl : 0 < sep.length := List.length_pos.mpr hsep
      have hrec : (s.drop (i + sep.length)).length ≤ n := by
        simp only [List.length_drop]
        omega
      obtain ⟨r, t, hrt⟩ : ∃ r t, strSplitAux sep n (s.drop (i + sep.length)) = r :: t := by
        cases hq : strSplitAux sep n (s.drop (i + sep.length)) with
        | nil => exact absurd hq (strSplitAux_ne_nil sep n _)
        | cons r t => exact ⟨r, t, rfl⟩
      simp only [strSplitAux, h, hrt, joinWith]
      rw [← hrt, ih _ hrec]
      exact strFind_decomp h

theorem joinWith_strSplit (s sep : PyStr) (hsep : sep ≠ []) :
    joinWith sep (strSplit s sep) = s :=
  joinWith_strSplitAux sep hsep s.length s (Nat.le_refl _)

theorem strReplaceAux_of_find_none {s old new : PyStr} {fuel : Nat}
    (h : strFind s old = none) : strReplaceAux old new fuel s = s := by
  cases fuel with
  | zero => rfl
  | succ n => simp [strReplaceAux, h]

theorem strReplace_of_find_none {s old new : PyStr} (h : strFind s old = none) :
    strReplace s old new = s := by
  have hold : old ≠ [] := by
    intro he
    rw [he, strFind_nil_sub] at h
    exact Option.noConfusion h
  rw [strReplace, if_neg (by simpa using hold)]
  exact strReplaceAux_of_find_none h

theorem dropWhile_of_all {q : Char → Bool} {w : PyStr} (hw : ∀ c ∈ w, q c = true) :
    w.dropWhile q = [] := by
  induction w with
  | nil => rfl
  | cons c cs ih =>
    rw [List.dropWhile_cons, if_pos (hw c (List.mem_cons_self c cs))]
    exact ih (fun x hx => hw x (List.mem_cons_of_mem c hx))

theorem pyStrip_pad {w1 w2 p : PyStr} (h1 : ∀ c ∈ w1, isPySpace c = true)
    (h2 : ∀ c ∈ w2, isPySpace c = true) :
    pyStrip (w1 ++ p ++ w2) = pyStrip p := by
  rw [pyStrip, pyStrip, List.append_assoc, List.dropWhile_append_of_pos h1,
    List.dropWhile_append]
  by_cases hpe : (p.dropWhile isPySpace).isEmpty
  · rw [if_pos hpe, dropWhile_of_all h2, List.isEmpty_iff.mp hpe]
  · rw [if_neg hpe, List.reverse_append, List.dropWhile_append_of_pos
      (fun c hc => h2 c (List.mem_reverse.mp hc))]

/-! ### Facts about the dict model and the per-part state machine -/

theorem dictGet_insert_self (m : List (PyStr × PyStr)) (k v : PyStr) :
    dictGet (dictInsert m k v) k = some v := by
  induction m with
  | nil => simp [dictInsert, dictGet]
  | cons kv rest ih =>
    obtain ⟨k2, v2⟩ := kv
    by_cases hk : k2 = k
    · simp [dictInsert, dictGet, hk]
    · simp only [dictInsert, dictGet, if_neg hk]
      exact ih

theorem dictGet_insert_other (m : List (PyStr × PyStr)) (k v k2 : PyStr) (h : k2 ≠ k) :
    dictGet (dictInsert m k v) k2 = dictGet m k2 := by
  induction m with
  | nil =>
    simp only [dictInsert, dictGet]
    rw [if_neg (fun he => h he.symm)]
  | cons kv rest ih =>
    obtain ⟨k3, v3⟩ := kv
    by_cases hk : k3 = k
    · subst hk
      simp only [dictInsert, if_pos rfl, dictGet]
      rw [if_neg (fun he : k3 = k2 => h he.symm), if_neg (fun he : k3 = k2 => h he.symm)]
    · simp only [dictInsert, if_neg hk, dictGet]
      by_cases hk2 : k3 = k2
      · simp [hk2]
      · simp only [if_neg hk2]
        exact ih

theorem partIsHtml_nil : partIsHtml [] = false := by decide

theorem isEmpty_false_of_partIsHtml {sp : PyStr} (h : partIsHtml sp = true) :
    sp.isEmpty = false := by
  cases sp with
  | nil => exact absurd h (by rw [partIsHtml_nil]; simp)
  | cons c cs => rfl

theorem processResource_main (st : ConvState) (sp : PyStr) :
    (processResource st sp).main_html = st.main_html := by
  rw [processResource]
  cases partLocation sp <;> cases partCid sp <;> rfl

theorem process_part_skip {p : PyStr} (h : (strippedPart p).isEmpty = true)
    (st : ConvState) : process_part st p = st := by
  simp [process_part, h]

theorem process_part_set {st : ConvState} {p : PyStr} (hm : st.main_html = none)
    (hh : partIsHtml (strippedPart p) = true) :
    process_part st p = { st with main_html := some (partHtmlText (strippedPart p)) } := by
  rw [process_part]
  simp only [isEmpty_false_of_partIsHtml hh, hh, hm, Option.isNone_none, Bool.and_self]
  rfl

theorem process_part_resource_of_some {st : ConvState} {p : PyStr} {h0 : PyStr}
    (hm : st.main_html = some h0) (hne : (strippedPart p).isEmpty = false) :
    process_part st p = processResource st (strippedPart p) := by
  rw [process_part]
  simp only [hne, hm, Option.isNone_some, Bool.and_false]
  rfl

theorem process_part_resource_of_nonhtml {st : ConvState} {p : PyStr}
    (hh : partIsHtml (strippedPart p) = false) (hne : (strippedPart p).isEmpty = false) :
    process_part st p = processResource st (strippedPart p) := by
  rw [process_part]
  simp only [hne, hh, Bool.false_and]
  rfl

theorem process_part_main_none {st : ConvState} {p : PyStr} (hm : st.main_html = none)
    (hh : partIsHtml (strippedPart p) = false) :
    (process_part st p).main_html = none := by
  by_cases he : (strippedPart p).isEmpty
  · rw [process_part_skip he, hm]
  · rw [process_part_resource_of_nonhtml hh (Bool.of_not_eq_true he),
      processResource_main, hm]

theorem process_part_main_some {st : ConvState} {p : PyStr} {h0 : PyStr}
    (hm : st.main_html = some h0) : (process_part st p).main_html = some h0 := by
  by_cases he : (strippedPart p).isEmpty
  · rw [process_part_skip he, hm]
  · rw [process_part_resource_of_some hm (Bool.of_not_eq_true he),
      processResource_main, hm]

theorem stAt_zero (parts : List PyStr) : stAt parts 0 = initState := rfl

theorem stAt_succ (parts : List PyStr) (j : Nat) (hj : j < parts.length) :
    stAt parts (j + 1) = process_part (stAt parts j) (parts.get ⟨j, hj⟩) := by
  have h1 : parts.take (j + 1) = parts.take j ++ [parts.get ⟨j, hj⟩] := by
    rw [List.take_succ, List.getElem?_eq_getElem hj]
    rfl
  rw [stAt, stAt, h1, List.foldl_append]
  rfl

theorem stAt_of_length_le (parts : List PyStr) (j : Nat) (hj : parts.length ≤ j) :
    stAt parts j = runParts parts := by
  rw [stAt, List.take_of_length_le hj, runParts]

theorem runParts_eq_stAt (parts : List PyStr) : runParts parts = stAt parts parts.length := by
  rw [stAt, List.take_length, runParts]

/-! ### Invariants of the part-processing loop -/

theorem stAt_main_none_upto (parts : List PyStr) (i : Nat)
    (hfirst : ∀ j (hj : j < parts.length), j < i →
      partIsHtml (strippedPart (parts.get ⟨j, hj⟩)) = false) :
    ∀ j, j ≤ i → j ≤ parts.length → (stAt parts j).main_html = none := by
  intro j
  induction j with
  | zero => intro _ _; rfl
  | succ n ih =>
    intro hni hnl
    have hn : n < parts.length := Nat.lt_of_succ_le hnl
    rw [stAt_succ parts n hn]
    exact process_part_main_none (ih (Nat.le_of_succ_le hni) (Nat.le_of_lt hn))
      (hfirst n hn (Nat.lt_of_succ_le hni))

theorem stAt_main_some_from (parts : List PyStr) (k : Nat) (h0 : PyStr)
    (hk : (stAt parts k).main_html = some h0) :
    ∀ j, k ≤ j → (stAt parts j).main_html = some h0 := by
  intro j hj
  induction j with
  | zero =>
    have : k = 0 := Nat.le_zero.mp hj
    rw [← this]
    exact hk
  | succ n ih =>
    by_cases hkn : k = n + 1
    · rw [← hkn]; exact hk
    · have hkle : k ≤ n := Nat.le_of_lt_succ (Nat.lt_of_le_of_ne hj hkn)
      by_cases hn : n < parts.length
      · rw [stAt_succ parts n hn]
        exact process_part_main_some (ih hkle)
      · rw [stAt_of_length_le parts (n + 1) (by omega),
          ← stAt_of_length_le parts n (by omega)]
        exact ih hkle

/-- C1: in a run over parts that include at least one whose Content-Type
value starts with text/html, with `i` the first such index in document
order: the PrimaryHTML retained at the end of the run is the decoded text
of part `i` (UTF-8 with Latin-1 fallback, via `partHtmlText`); processing
part `i` produces no data-URI map entry; PrimaryHTML holds that same value
at every later step, so it is set at most once over the whole run; and
every later text/html part is processed as an ordinary resource through
the data-URI synthesis path `processResource`. -/
theorem C1_first_html_wins (parts : List PyStr) (i : Nat) (hi : i < parts.length)
    (hq : partIsHtml (strippedPart (parts.get ⟨i, hi⟩)) = true)
    (hfirst : ∀ j (hj : j < parts.length), j < i →
      partIsHtml (strippedPart (parts.get ⟨j, hj⟩)) = false) :
    (runParts parts).main_html = some (partHtmlText (strippedPart (parts.get ⟨i, hi⟩)))
    ∧ (stAt parts (i + 1)).url_to_data_uri = (stAt parts i).url_to_data_uri
    ∧ (∀ j, i < j → (stAt parts j).main_html
        = some (partHtmlText (strippedPart (parts.get ⟨i, hi⟩))))
    ∧ (∀ j (hj : j < parts.length), i < j →
        partIsHtml (strippedPart (parts.get ⟨j, hj⟩)) = true →
        stAt parts (j + 1) = processResource (stAt parts j) (strippedPart (parts.get ⟨j, hj⟩))) := by
  have hA : (stAt parts i).main_html = none :=
    stAt_main_none_upto parts i hfirst i (Nat.le_refl i) (Nat.le_of_lt hi)
  have hset : stAt parts (i + 1)
      = { stAt parts i with
          main_html := some (partHtmlText (strippedPart (parts.get ⟨i, hi⟩))) } := by
    rw [stAt_succ parts i hi]
    exact process_part_set hA hq
  have hsome : (stAt parts (i + 1)).main_html
      = some (partHtmlText (strippedPart (parts.get ⟨i, hi⟩))) := by rw [hset]
  have hfrom := stAt_main_some_from parts (i + 1) _ hsome
  refine ⟨?_, ?_, ?_, ?_⟩
  · rw [runParts_eq_stAt]
    exact hfrom parts.length (Nat.succ_le_of_lt hi)
  · rw [hset]
  · intro j hj
    exact hfrom j (Nat.succ_le_of_lt hj)
  · intro j hj hij hh
    rw [stAt_succ parts j hj]
    exact process_part_resource_of_some (hfrom j (Nat.succ_le_of_lt hij))
      (isEmpty_false_of_partIsHtml hh)

/-- C1 applied to a concrete three-part document: an image part, a first
HTML part, and a second HTML part. -/
theorem C1_first_html_wins_witness :
    (runParts [("Content-Type: image/png\n\nPNG").data,
               ("Content-Type: text/html\n\n<p>A</p>").data,
               ("Content-Type: text/html\n\n<p>B</p>").data]).main_html
      = some (partHtmlText (strippedPart (("Content-Type: text/html\n\n<p>A</p>").data))) := by
  have h := C1_first_html_wins
    [("Content-Type: image/png\n\nPNG").data,
     ("Content-Type: text/html\n\n<p>A</p>").data,
     ("Content-Type: text/html\n\n<p>B</p>").data]
    1 (by decide) (by decide)
    (by
      intro j hj hji
      have hj0 : j = 0 := by omega
      subst hj0
      show partIsHtml (strippedPart (("Content-Type: image/png\n\nPNG").data)) = false
      decide)
  exact h.1

/-- C2: the transfer-decode step, applied to the token exactly as the
pipeline produces it (trimmed, then lower-cased, hence case-insensitive):
a base64 token yields the standard base64 decoding of the body when that
decoding succeeds; a quoted-printable token yields the quoted-printable
decoding when it succeeds; any other token (7bit, 8bit, binary, or
unrecognized) yields the UTF-8 encoding of the body text; and whenever the
attempted decoding raises, the result is the UTF-8 encoding of the raw
undecoded body text -- `decode_body` is total, so decode failures never
abort the run. -/
theorem C2_decode_policy (rawTok body : PyStr) :
    (∀ bs, pyLower (pyStrip rawTok) = ("base64").data → b64decodePy body = some bs →
      decode_body (pyLower (pyStrip rawTok)) body = bs)
    ∧ (∀ bs, pyLower (pyStrip rawTok) = ("quoted-printable").data → qpDecode body = some bs →
      decode_body (pyLower (pyStrip rawTok)) body = bs)
    ∧ (pyLower (pyStrip rawTok) ≠ ("base64").data →
       pyLower (pyStrip rawTok) ≠ ("quoted-printable").data →
      decode_body (pyLower (pyStrip rawTok)) body = utf8Encode body)
    ∧ (decodeAttempt (pyLower (pyStrip rawTok)) body = none →
      decode_body (pyLower (pyStrip rawTok)) body = utf8Encode body) := by
  refine ⟨?_, ?_, ?_, ?_⟩
  · intro bs h1 h2
    unfold decode_body decodeAttempt
    rw [if_pos h1, h2]
  · intro bs h1 h2
    have hne : pyLower (pyStrip rawTok) ≠ ("base64").data := by
      rw [h1]; decide
    unfold decode_body decodeAttempt
    rw [if_neg hne, if_pos h1, h2]
  · intro h1 h2
    unfold decode_body decodeAttempt
    rw [if_neg h1, if_neg h2]
  · intro h
    unfold decode_body
    rw [h]

/-- C2 applied concretely: the token " Base64 " is trimmed and lower-cased,
and the body "aGk=" base64-decodes to the bytes of "hi". -/
theorem C2_decode_policy_witness :
    decode_body (pyLower (pyStrip ((" Base64 ").data))) (("aGk=").data) = [104, 105] :=
  (C2_decode_policy ((" Base64 ").data) (("aGk=").data)).1 [104, 105] (by decide) (by decide)

/-! ### The link rewriter -/

theorem sortKeysDesc_perm (ks : List PyStr) : (sortKeysDesc ks).Perm ks :=
  List.mergeSort_perm ks _

theorem sortKeysDesc_sorted (ks : List PyStr) :
    (sortKeysDesc ks).Pairwise (fun a b => b.length ≤ a.length) := by
  have h : (sortKeysDesc ks).Pairwise
      (fun a b : PyStr => decide (b.length ≤ a.length) = true) := by
    unfold sortKeysDesc
    apply List.sorted_mergeSort
    · intro a b c hab hbc
      simp only [decide_eq_true_eq] at *
      omega
    · intro a b
      simp only [Bool.or_eq_true, decide_eq_true_eq]
      exact Nat.le_total b.length a.length
  exact h.imp (fun hab => of_decide_eq_true hab)

theorem perm_pair_cases {a b : PyStr} {ks : List PyStr} (h : ks.Perm [a, b]) :
    ks = [a, b] ∨ ks = [b, a] := by
  have hl : ks.length = 2 := by simpa using h.length_eq
  obtain ⟨x, rest, rfl⟩ : ∃ x rest, ks = x :: rest := by
    cases ks with
    | nil => simp at hl
    | cons x rest => exact ⟨x, rest, rfl⟩
  obtain ⟨y, rest2, rfl⟩ : ∃ y rest2, rest = y :: rest2 := by
    cases rest with
    | nil => simp at hl
    | cons y r => exact ⟨y, r, rfl⟩
  have hr2 : rest2 = [] := by
    cases rest2 with
    | nil => rfl
    | cons z zs => simp at hl
  subst hr2
  by_cases hxa : x = a
  · subst hxa
    left
    rw [List.perm_singleton.mp h.cons_inv]
  · have hx : x ∈ [a, b] := h.mem_iff.mp (List.mem_cons_self x [y])
    have hxb : x = b := by
      rcases List.mem_cons.mp hx with h1 | h1
      · exact absurd h1 hxa
      · simpa using h1
    subst hxb
    have h3 : ([x, y] : List PyStr).Perm [x, a] := h.trans (List.Perm.swap x a [])
    right
    rw [List.perm_singleton.mp h3.cons_inv]

/-- C3: the link rewriter applies, for each map key exactly once, a plain
literal replacement of all occurrences of that key by its data URI
(`strReplace`, folded over an enumeration of the keys), and the keys are
processed in descending order of string length; consequently, whenever one
key is a proper prefix of another, the two-key map is rewritten by
replacing the longer key first and the shorter key only afterwards,
whichever order the keys entered the map. -/
theorem C3_link_rewriter (m : List (PyStr × PyStr)) (html : PyStr) :
    (∃ ks : List PyStr, ks.Perm (m.map Prod.fst)
      ∧ ks.Pairwise (fun a b => b.length ≤ a.length)
      ∧ replace_links m html
          = ks.foldl (fun h k => strReplace h k ((dictGet m k).getD [])) html)
    ∧ (∀ k1 v1 v2 h0 t, t ≠ [] →
        replace_links [(k1, v1), (k1 ++ t, v2)] h0
            = strReplace (strReplace h0 (k1 ++ t) v2) k1 v1
        ∧ replace_links [(k1 ++ t, v2), (k1, v1)] h0
            = strReplace (strReplace h0 (k1 ++ t) v2) k1 v1) := by
  refine ⟨⟨sortKeysDesc (m.map Prod.fst), sortKeysDesc_perm _, sortKeysDesc_sorted _, rfl⟩, ?_⟩
  intro k1 v1 v2 h0 t htne
  have htpos : 0 < t.length := List.length_pos.mpr htne
  have hlt : k1.length < (k1 ++ t).length := by
    simp only [List.length_append]
    omega
  have hne : k1 ≠ k1 ++ t := by
    intro he
    have := congrArg List.length he
    simp only [List.length_append] at this
    omega
  have key : ∀ l : List PyStr, l.Perm [k1, k1 ++ t] → sortKeysDesc l = [k1 ++ t, k1] := by
    intro l hp
    have hperm : (sortKeysDesc l).Perm [k1, k1 ++ t] := (sortKeysDesc_perm l).trans hp
    rcases perm_pair_cases hperm with h1 | h1
    · exfalso
      have hs := sortKeysDesc_sorted l
      rw [h1] at hs
      have hle := (List.pairwise_cons.mp hs).1 (k1 ++ t) (List.mem_cons_self _ _)
      simp only [List.length_append] at hle
      omega
    · exact h1
  have hsort1 : sortKeysDesc (([(k1, v1), (k1 ++ t, v2)] :
      List (PyStr × PyStr)).map Prod.fst) = [k1 ++ t, k1] :=
    key _ (by rw [show (([(k1, v1), (k1 ++ t, v2)] :
      List (PyStr × PyStr)).map Prod.fst) = [k1, k1 ++ t] from rfl])
  have hsort2 : sortKeysDesc (([(k1 ++ t, v2), (k1, v1)] :
      List (PyStr × PyStr)).map Prod.fst) = [k1 ++ t, k1] :=
    key _ (by
      rw [show (([(k1 ++ t, v2), (k1, v1)] :
        List (PyStr × PyStr)).map Prod.fst) = [k1 ++ t, k1] from rfl]
      exact List.Perm.swap k1 (k1 ++ t) [])
  have hg1a : dictGet [(k1, v1), (k1 ++ t, v2)] (k1 ++ t) = some v2 := by
    simp [dictGet, hne]
  have hg1b : dictGet [(k1, v1), (k1 ++ t, v2)] k1 = some v1 := by
    simp [dictGet]
  have hg2a : dictGet [(k1 ++ t, v2), (k1, v1)] (k1 ++ t) = some v2 := by
    simp [dictGet]
  have hg2b : dictGet [(k1 ++ t, v2), (k1, v1)] k1 = some v1 := by
    simp [dictGet, Ne.symm hne]
  constructor
  · rw [replace_links, hsort1]
    simp only [List.foldl_cons, List.foldl_nil, hg1a, hg1b, Option.getD_some]
  · rw [replace_links, hsort2]
    simp only [List.foldl_cons, List.foldl_nil, hg2a, hg2b, Option.getD_some]

/-- C3 applied concretely: keys "a" and "ab", with "a" a proper prefix of
"ab"; the longer key is replaced first in both insertion orders. -/
theorem C3_link_rewriter_witness :
    replace_links [(("a").data, ("V").data), (("ab").data, ("U").data)] (("x ab a").data)
      = strReplace (strReplace (("x ab a").data) (("ab").data) (("U").data))
          (("a").data) (("V").data) :=
  ((C3_link_rewriter [(("a").data, ("V").data), (("ab").data, ("U").data)]
      (("x ab a").data)).2
    (("a").data) (("V").data) (("U").data) (("x ab a").data) (("b").data)
    (by decide)).1

/-! ### Structural errors -/

theorem findCapture_some_ne_nil {ci : Bool} {lit : PyStr} {stop : List Char}
    {close : Bool} {s r : PyStr} (h : findCapture ci lit stop close s = some r) :
    r ≠ [] := by
  rw [findCapture] at h
  cases hf : (List.range (s.length + 1)).find? (capMatchAt ci lit stop close s) with
  | none => rw [hf] at h; exact Option.noConfusion h
  | some i =>
    rw [hf] at h
    simp only [Option.map_some'] at h
    have hp := List.find?_some hf
    rw [capMatchAt] at hp
    simp only [Bool.and_eq_true, Bool.not_eq_true'] at hp
    obtain ⟨-, h2, -⟩ := hp
    rw [← Option.some.inj h]
    exact List.isEmpty_eq_false.mp h2

theorem parse_boundary_ne_nil {hb : PyStr} {b : PyStr}
    (h : parse_boundary hb = some b) : b ≠ [] := by
  rw [parse_boundary] at h
  exact findCapture_some_ne_nil h

theorem extract_parts_eq_ok {content : PyStr} {n : Nat} {b : PyStr}
    (hf : strFind content nlnl = some n) (hb : parse_boundary (content.take n) = some b) :
    extract_parts content
      = Except.ok (((strSplit content ((("--").data) ++ b)).drop 1).dropLast) := by
  have hbne : b.isEmpty = false := by simpa using parse_boundary_ne_nil hb
  simp only [extract_parts, hf, hb, hbne]
  rfl

theorem convert_of_extract_ok {content : PyStr} {parts : List PyStr}
    (hx : extract_parts content = Except.ok parts) :
    convert content = (match (runParts parts).main_html with
      | none => Except.ok none
      | some html => Except.ok (some (replace_links (runParts parts).url_to_data_uri html))) := by
  unfold convert
  rw [hx]

/-- C4: the conversion aborts with a fatal structural error, producing no
output, exactly when the document has no blank-line header/body separator,
or the header block before the first blank line has no double-quoted
`boundary` parameter; in every other case part extraction succeeds, and
`convert` aborts exactly when `_extract_parts` does. -/
theorem C4_structural_errors (content : PyStr) :
    ((∃ e, extract_parts content = Except.error e) ↔
      (strFind content nlnl = none ∨
        ∃ n, strFind content nlnl = some n ∧ parse_boundary (content.take n) = none))
    ∧ ((∃ e, convert content = Except.error e) ↔
        ∃ e, extract_parts content = Except.error e) := by
  constructor
  · constructor
    · rintro ⟨e, he⟩
      cases hf : strFind content nlnl with
      | none => exact Or.inl rfl
      | some n =>
        refine Or.inr ⟨n, rfl, ?_⟩
        cases hb : parse_boundary (content.take n) with
        | none => rfl
        | some b =>
          exfalso
          rw [extract_parts_eq_ok hf hb] at he
          exact Except.noConfusion he
    · intro h
      rcases h with hf | ⟨n, hf, hb⟩
      · refine ⟨("Invalid MHTML structure"), ?_⟩
        simp only [extract_parts, hf]
      · refine ⟨("No boundary found in MHTML headers"), ?_⟩
        simp only [extract_parts, hf, hb]
  · cases hx : extract_parts content with
    | error e =>
      constructor
      · intro _
        exact ⟨e, rfl⟩
      · intro _
        refine ⟨e, ?_⟩
        unfold convert
        rw [hx]
    | ok parts =>
      constructor
      · rintro ⟨e2, he⟩
        rw [convert_of_extract_ok hx] at he
        exfalso
        revert he
        cases (runParts parts).main_html <;> intro he <;> exact Except.noConfusion he
      · rintro ⟨e2, he⟩
        exact Except.noConfusion he

/-- C4 applied concretely: a document with no blank-line separator makes
part extraction abort with a structural error. -/
theorem C4_structural_errors_witness :
    ∃ e, extract_parts (("no separator here").data) = Except.error e :=
  (C4_structural_errors (("no separator here").data)).1.mpr (Or.inl (by decide))

/-- C5: when the document has a header/body separator at `n` and the header
block yields boundary `b`, the part splitter returns exactly the segments
of the split of the whole document on the separator string `--b`, with the
first segment (preamble) and last segment (epilogue) discarded, in document
order; joining the split segments back with `--b` reconstructs the document
(so the split is precisely on the occurrences of `--b`); and a whitespace-only
part is skipped silently: processing it leaves the pipeline state unchanged,
so it contributes neither a PrimaryHTML nor a map entry. -/
theorem C5_part_splitter (content : PyStr) (n : Nat) (b : PyStr)
    (h1 : strFind content nlnl = some n)
    (h2 : parse_boundary (content.take n) = some b) :
    extract_parts content
      = Except.ok (((strSplit content ((("--").data) ++ b)).drop 1).dropLast)
    ∧ joinWith ((("--").data) ++ b) (strSplit content ((("--").data) ++ b)) = content
    ∧ (∀ p st, (∀ c ∈ p, isPySpace c = true) → process_part st p = st) := by
  refine ⟨extract_parts_eq_ok h1 h2,
    joinWith_strSplit content _ (by simp [List.append_eq_nil]), ?_⟩
  intro p st hp
  have hstrip : pyStrip p = [] := by
    rw [pyStrip, dropWhile_of_all hp]
    rfl
  have hsp : (strippedPart p).isEmpty = true := by
    rw [strippedPart, hstrip]
    rfl
  exact process_part_skip hsp st

/-- C5 applied to a concrete document with boundary B: the extraction and
the reconstruction property, at boundary position 12. -/
theorem C5_part_splitter_witness :
    extract_parts (("boundary=\"B\"\n\nx--By--B--").data)
      = Except.ok (((strSplit (("boundary=\"B\"\n\nx--By--B--").data)
          ((("--").data) ++ ("B").data)).drop 1).dropLast)
    ∧ joinWith ((("--").data) ++ ("B").data)
        (strSplit (("boundary=\"B\"\n\nx--By--B--").data) ((("--").data) ++ ("B").data))
      = ("boundary=\"B\"\n\nx--By--B--").data :=
  ⟨(C5_part_splitter (("boundary=\"B\"\n\nx--By--B--").data) 12 (("B").data)
      (by decide) (by decide)).1,
   (C5_part_splitter (("boundary=\"B\"\n\nx--By--B--").data) 12 (("B").data)
      (by decide) (by decide)).2.1⟩

/-- C6: for a nonempty part that does not take the primary-HTML branch, the
synthesized data URI is the `data:<content_type>;base64,<base64>` string;
after processing, the map holds that URI under the trimmed
`Content-Location` value when that header is present, and under `cid:` plus
the trimmed bare identifier when `Content-ID` is present (both at once when
both are); and dict assignment is last-write-wins: a repeated key is
overwritten, other keys are untouched. -/
theorem C6_data_uri_registration (st : ConvState) (p : PyStr)
    (hne : (strippedPart p).isEmpty = false)
    (hnr : partIsHtml (strippedPart p) = false ∨ st.main_html ≠ none) :
    (make_data_uri (partContentType (strippedPart p)) (partDecoded (strippedPart p))
        = ("data:").data ++ partContentType (strippedPart p) ++ (";base64,").data
            ++ b64encode (partDecoded (strippedPart p)))
    ∧ (∀ loc, partLocation (strippedPart p) = some loc →
        dictGet (process_part st p).url_to_data_uri (pyStrip loc)
          = some (make_data_uri (partContentType (strippedPart p))
              (partDecoded (strippedPart p))))
    ∧ (∀ cid, partCid (strippedPart p) = some cid →
        dictGet (process_part st p).url_to_data_uri ((("cid:").data) ++ pyStrip cid)
          = some (make_data_uri (partContentType (strippedPart p))
              (partDecoded (strippedPart p))))
    ∧ (∀ m k v, dictGet (dictInsert m k v) k = some v)
    ∧ (∀ m k v k2, k2 ≠ k → dictGet (dictInsert m k v) k2 = dictGet m k2) := by
  have hres : process_part st p = processResource st (strippedPart p) := by
    rcases hnr with hh | hm
    · exact process_part_resource_of_nonhtml hh hne
    · obtain ⟨h0, hm0⟩ := Option.ne_none_iff_exists'.mp hm
      exact process_part_resource_of_some hm0 hne
  refine ⟨rfl, ?_, ?_, dictGet_insert_self, fun m k v k2 h => dictGet_insert_other m k v k2 h⟩
  · intro loc hloc
    cases hcid : partCid (strippedPart p) with
    | none =>
      simp only [hres, processResource, hloc, hcid]
      exact dictGet_insert_self _ _ _
    | some cid =>
      simp only [hres, processResource, hloc, hcid]
      by_cases hkk : (("cid:").data) ++ pyStrip cid = pyStrip loc
      · rw [hkk]
        exact dictGet_insert_self _ _ _
      · rw [dictGet_insert_other _ _ _ _ (fun he => hkk he.symm)]
        exact dictGet_insert_self _ _ _
  · intro cid hcid
    cases hloc : partLocation (strippedPart p) with
    | none =>
      simp only [hres, processResource, hloc, hcid]
      exact dictGet_insert_self _ _ _
    | some loc =>
      simp only [hres, processResource, hloc, hcid]
      exact dictGet_insert_self _ _ _

/-- C6 applied to a concrete image part with both a Content-Location and a
Content-ID header: the trimmed location key maps to the synthesized URI. -/
theorem C6_data_uri_registration_witness :
    dictGet (process_part initState
        (("Content-Type: image/png\nContent-Location: img/a.png\nContent-ID: <abc>\n\nB").data)).url_to_data_uri
      (pyStrip (("img/a.png").data))
      = some (make_data_uri
          (partContentType (strippedPart
            (("Content-Type: image/png\nContent-Location: img/a.png\nContent-ID: <abc>\n\nB").data)))
          (partDecoded (strippedPart
            (("Content-Type: image/png\nContent-Location: img/a.png\nContent-ID: <abc>\n\nB").data)))) :=
  (C6_data_uri_registration initState
    (("Content-Type: image/png\nContent-Location: img/a.png\nContent-ID: <abc>\n\nB").data)
    (by decide) (Or.inl (by decide))).2.1 (("img/a.png").data) (by decide)

/-! ### Header/body splitting and normalization -/

/-- C7 counterexample: the blank-line split happens on the raw part text
before any line-ending normalization, so a part whose separator is written
as CRLF-CRLF is NOT split there: its body comes out empty, unlike the
LF-LF version whose body is BODY. -/
theorem C7_counterexample :
    partBody (strippedPart (("A: b\r\n\r\nBODY").data)) ≠ ("BODY").data
    ∧ partBody (strippedPart (("A: b\n\nBODY").data)) = ("BODY").data := by decide

/-- C7 amended: for a part that is unchanged by stripping and whose first
blank-line separator (in the raw text) sits at the end of `h`, the decoder
uses `h` with CRLF normalized to LF as the header block and `b` with CRLF
normalized to LF as the body: normalization is applied to both pieces
before header parsing and decoding, but the split itself is performed on
the raw text at a literal LF-LF separator. -/
theorem C7_normalization (h b : PyStr)
    (hfind : strFind (h ++ nlnl ++ b) nlnl = some h.length)
    (hstrip : strippedPart (h ++ nlnl ++ b) = h ++ nlnl ++ b) :
    partHeaders (strippedPart (h ++ nlnl ++ b)) = strReplace h crlf lf1
    ∧ partBody (strippedPart (h ++ nlnl ++ b)) = strReplace b crlf lf1 := by
  have hpart : strPartition (h ++ nlnl ++ b) nlnl
      = (h, nlnl, b) := by
    simp only [strPartition, hfind]
    have ht : (h ++ nlnl ++ b).take h.length = h := by
      rw [List.append_assoc]
      exact List.take_left' rfl
    have hd : (h ++ nlnl ++ b).drop (h.length + nlnl.length) = b :=
      List.drop_left' (List.length_append h nlnl)
    rw [ht, hd]
  constructor
  · rw [partHeaders, hstrip, hpart]
  · rw [partBody, hstrip, hpart]

/-- C7 amended, applied to the concrete part with header block "A: b" and
body "c". -/
theorem C7_normalization_witness :
    partHeaders (strippedPart (("A: b").data ++ nlnl ++ ("c").data))
      = strReplace (("A: b").data) crlf lf1
    ∧ partBody (strippedPart (("A: b").data ++ nlnl ++ ("c").data))
      = strReplace (("c").data) crlf lf1 :=
  C7_normalization (("A: b").data) (("c").data) (by decide) (by decide)

theorem decode_body_nil (enc : PyStr) : decode_body enc [] = [] := by
  unfold decode_body decodeAttempt
  by_cases h1 : enc = ("base64").data
  · rw [if_pos h1]
    rfl
  · rw [if_neg h1]
    by_cases h2 : enc = ("quoted-printable").data
    · rw [if_pos h2]
      rfl
    · rw [if_neg h2]
      rfl

/-- C8 counterexample: the part "hello" has no blank-line separator; the
decoder files the WHOLE text as the header block and leaves the body
empty, not the other way round as the claim states. -/
theorem C8_counterexample :
    partHeaders (strippedPart (("hello").data)) = ("hello").data
    ∧ partBody (strippedPart (("hello").data)) = []
    ∧ ¬(partHeaders (strippedPart (("hello").data)) = []
        ∧ partBody (strippedPart (("hello").data)) = ("hello").data) := by decide

/-- C8 amended: a part with no blank-line separator is treated as having
the whole remaining text as its HEADER block (normalized) and an empty
body, so the transfer-decoded content is empty and header lookups scan the
whole text. -/
theorem C8_no_separator (p : PyStr)
    (hfind : strFind (strippedPart p) nlnl = none) :
    partHeaders (strippedPart p) = strReplace (strippedPart p) crlf lf1
    ∧ partBody (strippedPart p) = []
    ∧ partDecoded (strippedPart p) = [] := by
  have hpart : strPartition (strippedPart p) nlnl = (strippedPart p, [], []) := by
    simp only [strPartition, hfind]
  have hbody : partBody (strippedPart p) = [] := by
    rw [partBody, hpart]
    rfl
  refine ⟨?_, hbody, ?_⟩
  · rw [partHeaders, hpart]
  · rw [partDecoded, hbody]
    exact decode_body_nil _

/-- C8 amended, applied to the concrete part "hello". -/
theorem C8_no_separator_witness :
    partHeaders (strippedPart (("hello").data))
        = strReplace (strippedPart (("hello").data)) crlf lf1
    ∧ partBody (strippedPart (("hello").data)) = []
    ∧ partDecoded (strippedPart (("hello").data)) = [] :=
  C8_no_separator (("hello").data) (by decide)

/-! ### The round-trip and whitespace properties -/

theorem foldl_replace_id (html : PyStr) (g : PyStr → PyStr) :
    ∀ ks : List PyStr, (∀ k ∈ ks, strFind html k = none) →
      ks.foldl (fun h k => strReplace h k (g k)) html = html := by
  intro ks
  induction ks with
  | nil => intro _; rfl
  | cons k rest ih =>
    intro hk
    rw [List.foldl_cons, strReplace_of_find_none (hk k (List.mem_cons_self _ _))]
    exact ih (fun x hx => hk x (List.mem_cons_of_mem _ hx))

theorem replace_links_id (m : List (PyStr × PyStr)) (html : PyStr)
    (hk : ∀ kv ∈ m, strFind html kv.1 = none) :
    replace_links m html = html := by
  rw [replace_links]
  refine foldl_replace_id html _ _ ?_
  intro k hkmem
  have hmem : k ∈ m.map Prod.fst := ((sortKeysDesc_perm _).mem_iff).mp hkmem
  obtain ⟨kv, hkv, rfl⟩ := List.mem_map.mp hmem
  exact hk kv hkv

/-- C9: a well-formed document (separator and boundary both found) with
exactly one text/html part, none of whose resource-map keys occur in its
decoded text, converts to exactly that part's decoded text, unchanged. -/
theorem C9_single_html_roundtrip (content : PyStr) (parts : List PyStr) (i : Nat)
    (hi : i < parts.length)
    (hp : extract_parts content = Except.ok parts)
    (hq : partIsHtml (strippedPart (parts.get ⟨i, hi⟩)) = true)
    (huniq : ∀ j (hj : j < parts.length), j ≠ i →
      partIsHtml (strippedPart (parts.get ⟨j, hj⟩)) = false)
    (hkeys : ∀ kv ∈ (runParts parts).url_to_data_uri,
      strFind (partHtmlText (strippedPart (parts.get ⟨i, hi⟩))) kv.1 = none) :
    convert content
      = Except.ok (some (partHtmlText (strippedPart (parts.get ⟨i, hi⟩)))) := by
  have hfirst : ∀ j (hj : j < parts.length), j < i →
      partIsHtml (strippedPart (parts.get ⟨j, hj⟩)) = false :=
    fun j hj hji => huniq j hj (Nat.ne_of_lt hji)
  have hA : (stAt parts i).main_html = none :=
    stAt_main_none_upto parts i hfirst i (Nat.le_refl i) (Nat.le_of_lt hi)
  have hset : (stAt parts (i + 1)).main_html
      = some (partHtmlText (strippedPart (parts.get ⟨i, hi⟩))) := by
    rw [stAt_succ parts i hi, process_part_set hA hq]
  have hmain : (runParts parts).main_html
      = some (partHtmlText (strippedPart (parts.get ⟨i, hi⟩))) := by
    rw [runParts_eq_stAt]
    exact stAt_main_some_from parts (i + 1) _ hset parts.length (Nat.succ_le_of_lt hi)
  rw [convert_of_extract_ok hp, hmain]
  show Except.ok (some (replace_links (runParts parts).url_to_data_uri
      (partHtmlText (strippedPart (parts.get ⟨i, hi⟩))))) = _
  rw [replace_links_id _ _ hkeys]

/-- C9 applied to a concrete well-formed single-HTML document. -/
theorem C9_single_html_roundtrip_witness :
    convert (("Content-Type: multipart/related; boundary=\"B\"\n\n--B\nContent-Type: text/html\n\n<p>hi</p>\n--B--").data)
      = Except.ok (some (partHtmlText (strippedPart
          (("\nContent-Type: text/html\n\n<p>hi</p>\n").data)))) := by
  have hurl : (runParts [("\nContent-Type: text/html\n\n<p>hi</p>\n").data]).url_to_data_uri
      = [] := rfl
  exact C9_single_html_roundtrip
    (("Content-Type: multipart/related; boundary=\"B\"\n\n--B\nContent-Type: text/html\n\n<p>hi</p>\n--B--").data)
    [("\nContent-Type: text/html\n\n<p>hi</p>\n").data] 0
    (by decide) (by rfl) (by decide)
    (by
      intro j hj hne
      have hj1 : j < 1 := by simpa using hj
      exact absurd (by omega : j = 0) hne)
    (by
      intro kv hkv
      rw [hurl] at hkv
      exact absurd hkv (List.not_mem_nil kv))

/-- C10: every raw part is stripped of leading and trailing whitespace
before the header/body split, so surrounding whitespace (leading newlines
before the first header line, the trailing newline before the next
boundary marker) never influences processing: the stripped text, and hence
the whole effect of the part on the pipeline state -- decoded body,
stored PrimaryHTML, data-URI payload and map entries -- is identical with
or without the surrounding whitespace. -/
theorem C10_strip_invariance (st : ConvState) (p w1 w2 : PyStr)
    (h1 : ∀ c ∈ w1, isPySpace c = true) (h2 : ∀ c ∈ w2, isPySpace c = true) :
    strippedPart (w1 ++ p ++ w2) = strippedPart p
    ∧ process_part st (w1 ++ p ++ w2) = process_part st p := by
  have hs : strippedPart (w1 ++ p ++ w2) = strippedPart p := by
    rw [strippedPart, strippedPart, pyStrip_pad h1 h2]
  refine ⟨hs, ?_⟩
  rw [process_part, process_part, hs]

/-- C10 applied concretely: a newline-and-space prefix and a space-newline
suffix around a part change nothing. -/
theorem C10_strip_invariance_witness :
    strippedPart (("\n ").data ++ ("A: b\n\nc").data ++ (" \n").data)
      = strippedPart (("A: b\n\nc").data)
    ∧ process_part initState (("\n ").data ++ ("A: b\n\nc").data ++ (" \n").data)
      = process_part initState (("A: b\n\nc").data) :=
  C10_strip_invariance initState (("A: b\n\nc").data) (("\n ").data) ((" \n").data)
    (by decide) (by decide)
